import Mathlib

/-!
# Verification of the PhotoLookup core

Shallow embedding of the algorithmic core of the `photolookup` repository
(`src/server/phash_engine.py`, `image_detection_engine.py`, `index_builder.py`,
`index_store.py`, `index_builder_coordinator.py`) together with proofs about it.

Modelling conventions:
* Python ints are `ℤ`/`ℕ`; Python floats are modelled exactly in `ℚ`.
* Fallible code returns `Except String`; a raised exception is an `.error`.
* External capabilities (PIL image loading, the perceptual hash, sha256,
  `os.path.exists`, the system clock) are abstract function parameters: the
  theorems hold for every instantiation of these capabilities.
-/

namespace PhotoLookup

/-! ## Bounding boxes (`phash_engine.py`, `image_detection_engine.py`)

`BBox = (x0, y0, x1, y1)`, integer pixel coordinates, both bounds inclusive. -/

structure BBox where
  x0 : ℤ
  y0 : ℤ
  x1 : ℤ
  y1 : ℤ
deriving DecidableEq, Repr

/-- Abstract decoded raster image: its pixel dimensions plus an opaque content
tag.  Only the dimensions are inspected by the embedded code; cropping,
RGBA-compositing and hashing are abstract functions over `Img`. -/
structure Img where
  width : ℤ
  height : ℤ
  content : ℕ
deriving DecidableEq, Repr

/-- The clamp inside `_sanitize_bbox` (`phash_engine.py` lines 34-37):
each coordinate is clamped as `max(0, min(v, dim - 1))`. -/
def clampBBox (b : BBox) (width height : ℤ) : BBox :=
  ⟨max 0 (min b.x0 (width - 1)),
   max 0 (min b.y0 (height - 1)),
   max 0 (min b.x1 (width - 1)),
   max 0 (min b.y1 (height - 1))⟩

/-- Function `_sanitize_bbox` (`phash_engine.py` lines 32-40): clamp all four
coordinates into `[0, dim-1]` (the assignments modelled by `clampBBox`), then
raise `ValueError` if the clamped box is degenerate (`x1 < x0 or y1 < y0`). -/
def sanitize_bbox (b : BBox) (width height : ℤ) : Except String BBox :=
  if (clampBBox b width height).x1 < (clampBBox b width height).x0 ∨
      (clampBBox b width height).y1 < (clampBBox b width height).y0 then
    .error "Invalid bbox after clamp"
  else .ok (clampBBox b width height)

/-- Function `create_hash` (`phash_engine.py` lines 50-66).  `crop` abstracts
`PIL.Image.crop` (its argument is PIL's `(left, upper, right, lower)` box with
exclusive right/bottom bounds, hence the `+ 1` on the inclusive `x1`/`y1`);
`prepare` abstracts `_prepare_image` (RGBA-onto-white compositing and RGB
conversion); `phash` abstracts `_PHASH.compute`. -/
def create_hash (phash : Img → String) (prepare : Img → Img)
    (crop : Img → ℤ × ℤ × ℤ × ℤ → Img) (image : Img) (bbox : Option BBox) :
    Except String String :=
  match bbox with
  | none => .ok (phash (prepare image))
  | some b =>
    match sanitize_bbox b image.width image.height with
    | .error e => .error e
    | .ok c => .ok (phash (prepare (crop image (c.x0, c.y0, c.x1 + 1, c.y1 + 1))))

/-! ## `image_detection_engine.py` -/

/-- Constant `MAIN_IMAGE_MIN_AREA_RATIO = 0.6` as the exact rational `3/5`. -/
def mainImageMinAreaFrac : ℚ := 3 / 5

/-- Final clamp-and-guardrail stage of `detect_main_image`
(`image_detection_engine.py` lines 279-292).  `cand` is the candidate box
produced by the upstream profile analysis (already rescaled to full
resolution); this stage clamps it into bounds (the four `max(0, min(v, dim-1))`
assignments, inlined here) and falls back to the full-image box when the
clamped box is degenerate or covers less than 60% of the total area. -/
def clampGuard (width height : ℤ) (cand : BBox) : BBox :=
  if max 0 (min cand.x1 (width - 1)) ≤ max 0 (min cand.x0 (width - 1)) ∨
      max 0 (min cand.y1 (height - 1)) ≤ max 0 (min cand.y0 (height - 1)) then
    ⟨0, 0, width - 1, height - 1⟩
  else if ((max 0 (min cand.x1 (width - 1)) - max 0 (min cand.x0 (width - 1)) + 1) *
        (max 0 (min cand.y1 (height - 1)) - max 0 (min cand.y0 (height - 1)) + 1) : ℚ) /
      ((width * height : ℤ) : ℚ) < mainImageMinAreaFrac then
    ⟨0, 0, width - 1, height - 1⟩
  else
    ⟨max 0 (min cand.x0 (width - 1)), max 0 (min cand.y0 (height - 1)),
     max 0 (min cand.x1 (width - 1)), max 0 (min cand.y1 (height - 1))⟩

/-- Mean of a list of rationals (`np.mean` over exact values). -/
def meanQ (l : List ℚ) : ℚ := l.sum / (l.length : ℚ)

/-- Row-difference profile (`image_detection_engine.py` line 212):
`np.mean(np.abs(gray[1:, :] - gray[:-1, :]), axis=1)` — for each pair of
adjacent rows, the mean absolute difference.  For an image with a single row
the profile is empty (shape `(0,)`). -/
def rowDiffProfile (gray : List (List ℚ)) : List ℚ :=
  (gray.zip gray.tail).map fun rr => meanQ ((rr.1.zip rr.2).map fun ab => |ab.2 - ab.1|)

/-- Column-difference profile (line 213):
`np.mean(np.abs(gray[:, 1:] - gray[:, :-1]), axis=0)` — the row-difference
profile of the transposed image. -/
def colDiffProfile (gray : List (List ℚ)) : List ℚ :=
  rowDiffProfile gray.transpose

/-- Full discrete convolution `np.convolve(a, v)`:
`c[n] = Σ_m a[m] * v[n-m]`, length `M + N - 1`. -/
def convFull (a v : List ℚ) : List ℚ :=
  (List.range (a.length + v.length - 1)).map fun n =>
    ((List.range (n + 1)).map fun m => a.getD m 0 * v.getD (n - m) 0).sum

/-- Numpy `np.convolve(a, v, mode="same")`: the centered slice of the full
convolution, of length `max(M, N)`. -/
def convolveSame (a v : List ℚ) : List ℚ :=
  ((convFull a v).drop ((min a.length v.length - 1) / 2)).take (max a.length v.length)

/-- Function `_smooth_1d` (`image_detection_engine.py` lines 25-28): moving-average
smoothing via `np.convolve(values, ones(k)/k, mode="same")` with
`k = max(3, k)`.  `np.convolve` raises `ValueError` when an input array is
empty, so an empty profile makes `_smooth_1d` raise. -/
def smooth_1d (values : List ℚ) (k : ℕ) : Except String (List ℚ) :=
  if values.isEmpty then .error "np.convolve: empty input"
  else .ok (convolveSame values (List.replicate (max 3 k) (1 / ((max 3 k : ℕ) : ℚ))))

/-- Constant `SMOOTH_KERNEL = 11`. -/
def smoothKernel : ℕ := 11

/-- The profile stage of `detect_main_image` (lines 212-216): compute the row
and column difference profiles of the blurred grayscale image and smooth both.
The upstream steps (RGB conversion, optional downscale for images larger than
1000px, grayscale conversion, Gaussian blur) all preserve the pixel-grid
shape, so `gray` here has exactly the (possibly downscaled) image's
`height × width` shape. -/
def detectProfiles (gray : List (List ℚ)) : Except String (List ℚ × List ℚ) := do
  let rd ← smooth_1d (rowDiffProfile gray) smoothKernel
  let cd ← smooth_1d (colDiffProfile gray) smoothKernel
  .ok (rd, cd)

/-! ## `index_builder.py` and `index_store.py`

The index maps `image_id` (sha256 of the file path) to `{path, hash}`.
Python `dict`s preserve insertion order; they are modelled as association
lists with Python-dict assignment semantics (`dictInsert`): assigning to an
existing key replaces the value in place, a new key is appended. -/

/-- One index entry value: `{"path": ..., "hash": ...}`. -/
structure Entry where
  path : String
  hash : String
deriving DecidableEq, Repr

/-- A keyed entry: `(image_id, {path, hash})`. -/
abbrev KEntry := String × Entry

/-- An insertion-ordered dictionary `image_id → {path, hash}`. -/
abbrev Dict := List KEntry

/-- Python `d[k] = v`: replace in place if the key exists, else append. -/
def dictInsert : Dict → KEntry → Dict
  | [], e => [e]
  | x :: xs, e => if x.1 = e.1 then e :: xs else x :: dictInsert xs e

/-- Python `d.update(...)` / repeated assignment: insert each pair in order. -/
def dictUpdate (d : Dict) (l : List KEntry) : Dict := l.foldl dictInsert d

/-- Python `d.get(k)` / `d[k]`. -/
def dictGet : Dict → String → Option Entry
  | [], _ => none
  | x :: xs, k => if x.1 = k then some x.2 else dictGet xs k

/-- Python `k in d`. -/
def containsKey : Dict → String → Bool
  | [], _ => false
  | x :: xs, k => x.1 == k || containsKey xs k

/-- Per-file logic of `_process_image_batch` (`index_builder.py` lines 33-47):
load the image, derive `image_id` and the perceptual hash.  `imageId`
abstracts `hashlib.sha256(path.encode()).hexdigest()` (a deterministic
function of the path); `hashFile` abstracts `load_image` + `hasher.hash_image`
(`none` means the per-file `try/except` caught an exception for that path). -/
def processPath (imageId : String → String) (hashFile : String → Option String)
    (p : String) : Option KEntry :=
  (hashFile p).map fun h => (imageId p, ⟨p, h⟩)

/-- The `results` list of `_process_image_batch`: successfully hashed paths,
in order. -/
def batchResults (imageId : String → String) (hashFile : String → Option String)
    (paths : List String) : List KEntry :=
  paths.filterMap (processPath imageId hashFile)

/-- The `errors` list of `_process_image_batch`: `f"{path}: {exc}"` messages
for the failing paths, in order. -/
def batchErrors (hashFile : String → Option String) (paths : List String) :
    List String :=
  (paths.filter fun p => (hashFile p).isNone).map fun p => p ++ ": error"

/-- Recursion for `_iter_batches`: accumulate paths, emit the batch once its
length reaches `batchSize` (checked after appending), emit the final partial
batch if nonempty. -/
def iterBatchesGo (batchSize : ℕ) (acc : List String) :
    List String → List (List String)
  | [] => if acc.isEmpty then [] else [acc]
  | p :: ps =>
    if batchSize ≤ (acc ++ [p]).length then (acc ++ [p]) :: iterBatchesGo batchSize [] ps
    else iterBatchesGo batchSize (acc ++ [p]) ps

/-- Function `_iter_batches` (`index_builder.py` lines 52-72). -/
def iterBatches (batchSize : ℕ) (paths : List String) : List (List String) :=
  iterBatchesGo batchSize [] paths

/-- Constant `BATCH_SIZE = 20`. -/
def defaultBatchSize : ℕ := 20

/-- Modelled from the spec: `build_index_sequential` is imported and called by
`index_store.py` (lines 53-69, 137-153) and exercised by
`scripts/test_parallel_index.py` with `build_workers=1`, but its definition is
missing from the provided `index_builder.py`.  Spec §4.3: "Sequential mode
(worker count = 1): identical per-file logic, no parallelism" — every
discovered path is processed in order with the per-file logic of
`_process_image_batch`, returning `(items, errors)`. -/
def build_index_sequential (imageId : String → String)
    (hashFile : String → Option String) (paths : List String) :
    Dict × List String :=
  (dictUpdate [] (batchResults imageId hashFile paths), batchErrors hashFile paths)

/-- Function `build_index_parallel` (`index_builder.py` lines 75-145).  Batches are
submitted in discovery order and collected in `as_completed` order, which is
scheduler-dependent: it is modelled by `completed`, an arbitrary reordering of
the submitted batches (theorems hypothesise
`completed ~ iterBatches batchSize paths`).  The worker count only affects
scheduling, never the per-file results, and is omitted.  The batch-timeout and
worker-exception branches drop a batch's results; the normal-operation path in
which every future returns its batch's `(results, errors)` is modelled. -/
def build_index_parallel (imageId : String → String)
    (hashFile : String → Option String) (completed : List (List String)) :
    Dict × List String :=
  (dictUpdate [] ((completed.map (batchResults imageId hashFile)).flatten),
   (completed.map (batchErrors hashFile)).flatten)

/-- The configuration and platform facts that select the processing mode in
`IndexStore.build`/`update`: the configured worker count, and whether the
parallel attempt raises (e.g. `ProcessPoolExecutor` startup failure). -/
structure BuildCfg where
  workers : ℕ
  poolStartupFails : Bool
deriving DecidableEq, Repr

/-- The `try:` around `build_index_parallel` in `IndexStore.build`/`update`:
either the parallel build returns its result or the attempt raises. -/
def tryBuildParallel (imageId : String → String) (hashFile : String → Option String)
    (cfg : BuildCfg) (completed : List (List String)) :
    Except String (Dict × List String) :=
  if cfg.poolStartupFails then .error "Parallel processing failed"
  else .ok (build_index_parallel imageId hashFile completed)

/-- The worker-count dispatch shared by `IndexStore.build` (lines 51-69) and
`IndexStore.update` (lines 135-153): sequential when `build_workers == 1`,
otherwise parallel, falling back to sequential over the (re-created) path
listing when the parallel attempt raises — the exception is caught, logged as
a warning and never propagated. -/
def runBuilder (imageId : String → String) (hashFile : String → Option String)
    (cfg : BuildCfg) (completed : List (List String)) (paths : List String) :
    Dict × List String :=
  if cfg.workers = 1 then build_index_sequential imageId hashFile paths
  else
    match tryBuildParallel imageId hashFile cfg completed with
    | .ok r => r
    | .error _ => build_index_sequential imageId hashFile paths

/-- The `stats` block of the update metadata. -/
structure Stats where
  added : ℕ
  removed : ℕ
  total : ℕ
deriving DecidableEq, Repr

/-- Index metadata (`meta` dict written by `build`/`update`).  `hashMeta`
abstracts `hasher.get_metadata()`; timestamps are opaque strings; `stats` is
present only after `update`. -/
structure IndexMeta where
  hashMeta : String
  createdAt : String
  updatedAt : String
  operation : String
  libraryDirs : List String
  errors : List String
  stats : Option Stats
deriving DecidableEq, Repr

/-- Record `IndexData`: the full `meta` plus `items` snapshot. -/
structure IndexData where
  meta : IndexMeta
  items : Dict
deriving DecidableEq, Repr

/-- The environment of a store operation: the abstract hashing capabilities,
the filesystem (`os.path.exists`), the discovery result
(`_iter_image_files` over the configured library dirs), and the constants
recorded into metadata (`hasher.get_metadata()`, `datetime.now()`,
`config.image_library_dirs`). -/
structure StoreEnv where
  imageId : String → String
  hashFile : String → Option String
  pathExists : String → Bool
  discovered : List String
  libraryDirs : List String
  hashMeta : String
  now : String

/-- Method `IndexStore.build` (`index_store.py` lines 38-90): discard any existing
index, process every discovered path through the worker-count dispatch, and
assemble fresh metadata (`created_at = updated_at = now`, operation "build",
no stats). -/
def IndexStore.build (env : StoreEnv) (cfg : BuildCfg)
    (completed : List (List String)) : IndexData :=
  ⟨⟨env.hashMeta, env.now, env.now, "build", env.libraryDirs,
    (runBuilder env.imageId env.hashFile cfg completed env.discovered).2, none⟩,
   (runBuilder env.imageId env.hashFile cfg completed env.discovered).1⟩

/-- Step 1 of `IndexStore.update` (lines 109-114): the entries that survive —
those whose backing file still exists. -/
def updateKept (env : StoreEnv) (idx : IndexData) : Dict :=
  idx.items.filter fun e => env.pathExists e.2.path

/-- The `removed_paths` list of `IndexStore.update`: the paths of the entries
deleted because their backing file no longer exists. -/
def updateRemovedPaths (env : StoreEnv) (idx : IndexData) : List String :=
  (idx.items.filter fun e => !env.pathExists e.2.path).map fun e => e.2.path

/-- Steps 2-3 of `IndexStore.update` (lines 119-129): the `new_paths` list —
discovered paths not already present in the index by exact path match. -/
def updateNewPaths (env : StoreEnv) (idx : IndexData) : List String :=
  env.discovered.filter fun p => !((updateKept env idx).map fun e => e.2.path).contains p

/-- Method `IndexStore.update` (`index_store.py` lines 92-184), after `init()`.
`st = none` models "no index exists" (`is_loaded()` false): update degrades to
a full build.  Otherwise: drop entries whose backing file no longer exists
(`updateKept`/`updateRemovedPaths`), discover paths not present in the index
by exact path match (`updateNewPaths`), process only those through the
worker-count dispatch (`completed` is the `as_completed` order over the new
paths), merge into the surviving mapping, and recompute metadata preserving
`created_at`.  When there are no new files the source skips the builder call
and sets `errors = []`, which coincides with running the builder on the empty
list. -/
def IndexStore.update (env : StoreEnv) (cfg : BuildCfg)
    (completed : List (List String)) (st : Option IndexData) : IndexData :=
  match st with
  | none => IndexStore.build env cfg completed
  | some idx =>
    let processed := if (updateNewPaths env idx).isEmpty
      then (([] : Dict), ([] : List String))
      else runBuilder env.imageId env.hashFile cfg completed (updateNewPaths env idx)
    let merged := dictUpdate (updateKept env idx) processed.1
    ⟨⟨env.hashMeta, idx.meta.createdAt, env.now, "update", env.libraryDirs,
      processed.2, some ⟨(updateNewPaths env idx).length,
        (updateRemovedPaths env idx).length, merged.length⟩⟩,
     merged⟩

/-- One `IndexStore.lookup_matches` result row, with fields id, path, distance.
Distances (`hasher.compute_distance` floats) are modelled in `ℚ`. -/
structure MatchRow where
  id : String
  path : String
  distance : ℚ
deriving DecidableEq, Repr

/-- The comparison used by `results.sort(key=lambda item: item["distance"])`. -/
def rowLE (a b : MatchRow) : Bool := a.distance ≤ b.distance

/-- The `results` list of `lookup_matches` (lines 205-209): one row per index
entry, in index order, with the distance of the query hash against that
entry's hash. -/
def scanRows (dist : String → String → ℚ) (items : Dict) (queryHash : String) :
    List MatchRow :=
  items.map fun e => MatchRow.mk e.1 e.2.path (dist queryHash e.2.hash)

/-- Method `IndexStore.lookup_matches` (`index_store.py` lines 202-212): linear scan
over all entries computing a distance for each (`dist` abstracts
`hasher.compute_distance` against the query hash), stable ascending sort by
distance (Python `list.sort` is stable; modelled by the stable
`List.mergeSort`), truncated to `top_k`. -/
def lookup_matches (dist : String → String → ℚ) (items : Dict)
    (queryHash : String) (topK : ℕ) : List MatchRow :=
  ((scanRows dist items queryHash).mergeSort rowLE).take topK

/-! ## `IndexStore._save` (`index_store.py` lines 229-238)

`_save` runs `open(self._index_path, "w")` — which truncates the file at the
canonical index path in place — and then `json.dump(payload, f, ...)`, which
streams the serialized payload into that same file.  There is no temporary
file and no rename.  The filesystem is modelled as the content at the
canonical index path (`none` = absent), and the save as the sequence of
content states a concurrent reader of that path could observe. -/

/-- Content of the canonical index path. -/
abbrev FsState := Option String

/-- One observable filesystem step of `_save`. -/
inductive SaveStep where
  | truncate
  | writeChunk (s : String)
deriving DecidableEq, Repr

/-- The step sequence of `_save`: `open(path, "w")` truncates, then
`json.dump` writes the serialized payload incrementally. -/
def saveSteps (chunks : List String) : List SaveStep :=
  .truncate :: chunks.map .writeChunk

/-- Effect of one step on the canonical path's content. -/
def stepFs : FsState → SaveStep → FsState
  | _, .truncate => some ""
  | st, .writeChunk s => some (st.getD "" ++ s)

/-- All content states visible at the canonical path during a step sequence,
including the initial state. -/
def fsTrace (st : FsState) : List SaveStep → List FsState
  | [] => [st]
  | step :: steps => st :: fsTrace (stepFs st step) steps

/-! ## `index_builder_coordinator.py` -/

/-- Enum `BuildStatus` (coordinator lines 14-19). -/
inductive BuildStatus where
  | running
  | completed
  | failed
deriving DecidableEq, Repr

/-- Record `BuildProgress` (coordinator lines 22-33); `result` holds the final
`IndexData.meta` on completion. -/
structure BuildProgress where
  operation : String
  status : BuildStatus
  progress : ℕ
  total : Option ℕ
  startedAt : String
  completedAt : Option String
  error : Option String
  result : Option IndexMeta
deriving DecidableEq, Repr

/-- Coordinator state: the single `_current_task` slot.  Every mutation of it
in the source happens under `self._task_lock`; each `Coordinator → Coordinator`
step below models one such locked critical section, so traces of these steps
are exactly the states a concurrent `get_status` poll can observe. -/
structure Coordinator where
  currentTask : Option BuildProgress
deriving DecidableEq, Repr

/-- The guard in `start_build` (line 64):
`self._current_task is not None and self._current_task.status == RUNNING`. -/
def isRunningTask (c : Coordinator) : Bool :=
  match c.currentTask with
  | some t => t.status == .running
  | none => false

/-- The fresh task record installed by `start_build` (lines 68-75). -/
def newBuildTask (rebuild : Bool) (now : String) : BuildProgress :=
  ⟨if rebuild then "build" else "update", .running, 0, none, now, none, none, none⟩

/-- Method `IndexBuilderCoordinator.start_build` (lines 49-86): under the task lock,
raise `RuntimeError` immediately if the current task is running (no blocking,
no queuing), otherwise install a new running task, launch the background
thread, and return the initial snapshot. -/
def startBuild (c : Coordinator) (rebuild : Bool) (now : String) :
    Except String (BuildProgress × Coordinator) :=
  if isRunningTask c then .error "Build already in progress"
  else .ok (newBuildTask rebuild now, ⟨some (newBuildTask rebuild now)⟩)

/-- Modelled from the spec: the progress reports of the store operation.  The
coordinator's `_run_build_task` calls
`self._index_store.build(progress_callback=on_progress)` (lines 116, 118), but
`IndexStore.build`/`update` in the provided `index_store.py` accept no
`progress_callback` parameter — the progress-reporting variant of the store
operation is missing from the sources.  Spec §4.5: the operation "reports
incremental progress (files processed so far) via a callback"; matching the
`processed_count` accumulation of `build_index_parallel`, the reported values
are the running totals of per-batch processed counts (results + errors = the
batch size). -/
def runningCountsGo (acc : ℕ) : List ℕ → List ℕ
  | [] => []
  | n :: ns => (acc + n) :: runningCountsGo (acc + n) ns

/-- The stream of values passed to the progress callback: one running total
per completed batch. -/
def runningCounts (batchCounts : List ℕ) : List ℕ :=
  runningCountsGo 0 batchCounts

/-- The `on_progress` callback body (coordinator lines 109-112): one locked
critical section setting `progress` on the current task, if any. -/
def applyProgress (c : Coordinator) (n : ℕ) : Coordinator :=
  match c.currentTask with
  | some t => ⟨some { t with progress := n }⟩
  | none => c

/-- The completion block of `_run_build_task` (lines 121-127): one locked
critical section marking the task completed and recording `completed_at`,
`total` (the final store count), `progress = total`, and the result metadata. -/
def completeTask (c : Coordinator) (total : ℕ) (now : String) (meta : IndexMeta) :
    Coordinator :=
  match c.currentTask with
  | some t => ⟨some { t with
      status := .completed
      completedAt := some now
      total := some total
      progress := total
      result := some meta }⟩
  | none => c

/-- The coordinator states observable between locked critical sections while
`_run_build_task` runs a successful build: the state at launch, the state
after each progress callback, and the state after the completion block. -/
def runBuildTaskTrace (c : Coordinator) (counts : List ℕ) (total : ℕ)
    (now : String) (meta : IndexMeta) : List Coordinator :=
  match counts with
  | [] => [c, completeTask c total now meta]
  | n :: ns => c :: runBuildTaskTrace (applyProgress c n) ns total now meta

/-- Progress counter visible to a `get_status` poll (0 if no task). -/
def taskProgress (c : Coordinator) : ℕ :=
  match c.currentTask with
  | some t => t.progress
  | none => 0

end PhotoLookup

namespace PhotoLookup

/-! ## Theorems: detection engine and hash engine claims -/

/-- C9: in `detect_main_image`, if the candidate box after rescaling and
clamping is degenerate (`x1 ≤ x0` or `y1 ≤ y0`) or covers less than 60% of the
total image area, it is discarded and the full-image box
`(0, 0, width-1, height-1)` is returned instead. -/
theorem clampGuard_degenerate_or_small_gives_full_box
    (width height : ℤ) (cand : BBox)
    (h : (max 0 (min cand.x1 (width - 1)) ≤ max 0 (min cand.x0 (width - 1)) ∨
          max 0 (min cand.y1 (height - 1)) ≤ max 0 (min cand.y0 (height - 1))) ∨
         ((max 0 (min cand.x1 (width - 1)) - max 0 (min cand.x0 (width - 1)) + 1) *
          (max 0 (min cand.y1 (height - 1)) - max 0 (min cand.y0 (height - 1)) + 1) : ℚ) /
            ((width * height : ℤ) : ℚ) < mainImageMinAreaFrac) :
    clampGuard width height cand = ⟨0, 0, width - 1, height - 1⟩ := by
  unfold clampGuard
  rcases h with h | h
  · rw [if_pos h]
  · by_cases hdeg : max 0 (min cand.x1 (width - 1)) ≤ max 0 (min cand.x0 (width - 1)) ∨
        max 0 (min cand.y1 (height - 1)) ≤ max 0 (min cand.y0 (height - 1))
    · rw [if_pos hdeg]
    · rw [if_neg hdeg, if_pos h]

/-- Witness for C9: a 10×10 image with a candidate box covering only 4 of the
100 pixels (under 60%) is discarded in favour of the full-image box. -/
theorem clampGuard_degenerate_or_small_gives_full_box_witness :
    clampGuard 10 10 ⟨2, 2, 3, 3⟩ = ⟨0, 0, 9, 9⟩ := by
  apply clampGuard_degenerate_or_small_gives_full_box
  right
  norm_num [mainImageMinAreaFrac]

/-- C2 (failing input): `detect_main_image` does not always return a box — it
raises for any image of height 1.  For such an image the row-difference
profile `np.mean(np.abs(gray[1:,:] - gray[:-1,:]), axis=1)` is empty, and
`_smooth_1d` then calls `np.convolve` on an empty array, which raises
`ValueError` instead of falling back to the full-image box
`(0, 0, width-1, height-1)`. -/
theorem detect_main_image_raises_on_single_row (row : List ℚ) :
    detectProfiles [row] = .error "np.convolve: empty input" := by
  rfl

/-- C10: for every image and explicitly supplied bbox, `create_hash` first
clamps each coordinate into `[0, dim-1]`; if the clamped bbox is degenerate
(`x1 < x0` or `y1 < y0`) it raises `ValueError` instead of returning a hash,
and otherwise it crops using exclusive right/bottom bounds
`(x0, y0, x1+1, y1+1)` before hashing. -/
theorem create_hash_clamps_then_crops_exclusive
    (phash : Img → String) (prepare : Img → Img) (crop : Img → ℤ × ℤ × ℤ × ℤ → Img)
    (image : Img) (b : BBox)
    (hw : 1 ≤ image.width) (hh : 1 ≤ image.height) :
    (0 ≤ (clampBBox b image.width image.height).x0 ∧
       (clampBBox b image.width image.height).x0 ≤ image.width - 1) ∧
    (0 ≤ (clampBBox b image.width image.height).y0 ∧
       (clampBBox b image.width image.height).y0 ≤ image.height - 1) ∧
    (0 ≤ (clampBBox b image.width image.height).x1 ∧
       (clampBBox b image.width image.height).x1 ≤ image.width - 1) ∧
    (0 ≤ (clampBBox b image.width image.height).y1 ∧
       (clampBBox b image.width image.height).y1 ≤ image.height - 1) ∧
    create_hash phash prepare crop image (some b) =
      (if (clampBBox b image.width image.height).x1 < (clampBBox b image.width image.height).x0 ∨
          (clampBBox b image.width image.height).y1 < (clampBBox b image.width image.height).y0 then
        .error "Invalid bbox after clamp"
      else
        .ok (phash (prepare (crop image
          ((clampBBox b image.width image.height).x0,
           (clampBBox b image.width image.height).y0,
           (clampBBox b image.width image.height).x1 + 1,
           (clampBBox b image.width image.height).y1 + 1))))) := by
  refine ⟨⟨?_, ?_⟩, ⟨?_, ?_⟩, ⟨?_, ?_⟩, ⟨?_, ?_⟩, ?_⟩
  · exact le_max_left 0 _
  · exact max_le (by omega) (min_le_right _ _)
  · exact le_max_left 0 _
  · exact max_le (by omega) (min_le_right _ _)
  · exact le_max_left 0 _
  · exact max_le (by omega) (min_le_right _ _)
  · exact le_max_left 0 _
  · exact max_le (by omega) (min_le_right _ _)
  · have hcc : create_hash phash prepare crop image (some b) =
        match sanitize_bbox b image.width image.height with
        | .error e => .error e
        | .ok c => .ok (phash (prepare (crop image (c.x0, c.y0, c.x1 + 1, c.y1 + 1)))) := rfl
    rw [hcc]
    unfold sanitize_bbox
    by_cases hdeg : (clampBBox b image.width image.height).x1 <
        (clampBBox b image.width image.height).x0 ∨
        (clampBBox b image.width image.height).y1 < (clampBBox b image.width image.height).y0
    · rw [if_pos hdeg, if_pos hdeg]
    · rw [if_neg hdeg, if_neg hdeg]

/-- Witness for C10: on an 8×6 image, the out-of-range bbox `(-3, 2, 100, 4)`
is clamped to `(0, 2, 7, 4)` (all coordinates in bounds) and hashed over the
exclusive crop `(0, 2, 8, 5)`. -/
theorem create_hash_clamps_then_crops_exclusive_witness :
    create_hash (fun i => toString i.content) id
        (fun i r => ⟨r.2.2.1 - r.1, r.2.2.2 - r.2.1, i.content⟩)
        ⟨8, 6, 7⟩ (some ⟨-3, 2, 100, 4⟩) = .ok "7" := by
  have h := (create_hash_clamps_then_crops_exclusive (fun i => toString i.content) id
    (fun i r => ⟨r.2.2.1 - r.1, r.2.2.2 - r.2.1, i.content⟩) ⟨8, 6, 7⟩ ⟨-3, 2, 100, 4⟩
    (by norm_num) (by norm_num)).2.2.2.2
  rw [h]
  rfl

/-! ## Theorems: build coordinator -/

/-- C4: at most one build task is running at any time: `start_build` raises a
distinct conflict error immediately (no blocking, no queuing) whenever the
current task is running; otherwise it installs a new running task and returns
its initial snapshot; once the previous task is terminal (completed or
failed), a subsequent `start_build` succeeds. -/
theorem startBuild_exclusive (c : Coordinator) (rebuild : Bool) (now : String) :
    (isRunningTask c = true →
      startBuild c rebuild now = .error "Build already in progress") ∧
    (isRunningTask c = false →
      startBuild c rebuild now =
        .ok (newBuildTask rebuild now, ⟨some (newBuildTask rebuild now)⟩) ∧
      (newBuildTask rebuild now).status = .running ∧
      (newBuildTask rebuild now).progress = 0) ∧
    (∀ t, c.currentTask = some t → t.status = .completed ∨ t.status = .failed →
      startBuild c rebuild now =
        .ok (newBuildTask rebuild now, ⟨some (newBuildTask rebuild now)⟩)) := by
  refine ⟨?_, ?_, ?_⟩
  · intro h
    unfold startBuild
    rw [if_pos h]
  · intro h
    unfold startBuild
    rw [if_neg (by simp [h])]
    exact ⟨rfl, rfl, rfl⟩
  · intro t ht hterm
    have hrun : isRunningTask c = false := by
      unfold isRunningTask
      rw [ht]
      show (t.status == BuildStatus.running) = false
      rcases hterm with h | h <;> rw [h] <;> rfl
    unfold startBuild
    rw [if_neg (by simp [hrun])]

/-- Witness for C4: with a running task installed, `start_build` fails with
the conflict error; with that task completed, `start_build` succeeds and
installs a fresh running task. -/
theorem startBuild_exclusive_witness :
    startBuild ⟨some ⟨"build", .running, 3, none, "t0", none, none, none⟩⟩ true "t1" =
      .error "Build already in progress" ∧
    startBuild ⟨some ⟨"build", .completed, 5, some 5, "t0", some "t2", none, none⟩⟩ false "t3" =
      .ok (newBuildTask false "t3", ⟨some (newBuildTask false "t3")⟩) := by
  constructor
  · exact (startBuild_exclusive ⟨some ⟨"build", .running, 3, none, "t0", none, none, none⟩⟩
      true "t1").1 rfl
  · exact (startBuild_exclusive ⟨some ⟨"build", .completed, 5, some 5, "t0", some "t2", none,
      none⟩⟩ false "t3").2.2 _ rfl (Or.inl rfl)

/-! ## Theorems: persistence (`_save`) -/

/-- The canonical path's content after running a step sequence is the fold of
the steps. -/
theorem fsTrace_getLast? : ∀ (steps : List SaveStep) (st : FsState),
    (fsTrace st steps).getLast? = some (steps.foldl stepFs st)
  | [], _ => rfl
  | step :: steps, st => by
    rw [show fsTrace st (step :: steps) = st :: fsTrace (stepFs st step) steps from rfl]
    rw [show (step :: steps).foldl stepFs st = steps.foldl stepFs (stepFs st step) from rfl]
    rw [← fsTrace_getLast? steps (stepFs st step)]
    cases hs : fsTrace (stepFs st step) steps with
    | nil => exact absurd hs (by cases steps <;> simp [fsTrace])
    | cons a l => rw [List.getLast?_cons_cons]

/-- Writing chunk-by-chunk from intermediate content `acc` ends with `acc`
followed by all the chunks. -/
theorem foldl_writeChunks : ∀ (chunks : List String) (acc : String),
    (chunks.map SaveStep.writeChunk).foldl stepFs (some acc) =
      some (chunks.foldl (fun s c => s ++ c) acc)
  | [], _ => rfl
  | c :: cs, acc => foldl_writeChunks cs (acc ++ c)

/-- C8 (counterexample): `_save` is not atomic.  Saving the payload chunks
`"A", "B"` over previous content `"OLD"`, the canonical index path passes
through the states `"OLD"`, `""` (truncated), `"A"` (half-written), `"AB"`:
half-written content is visible at the canonical path, contradicting
"a half-written file is never visible at the canonical index path". -/
theorem save_not_atomic_counterexample :
    fsTrace (some "OLD") (saveSteps ["A", "B"]) =
      [some "OLD", some "", some "A", some "AB"] ∧
    ¬(∀ s ∈ fsTrace (some "OLD") (saveSteps ["A", "B"]),
        s = some "OLD" ∨ s = some "AB") := by
  constructor
  · rfl
  · intro h
    have := h (some "A") (by rw [show fsTrace (some "OLD") (saveSteps ["A", "B"]) =
      [some "OLD", some "", some "A", some "AB"] from rfl]; simp)
    rcases this with h' | h' <;> simp at h'

/-- C8 (amended): `_save` replaces the snapshot by truncating and rewriting
the canonical index file in place (`open(path, "w")` + `json.dump`; no
write-then-rename): after a normally-completed save the canonical path holds
exactly the complete serialized payload, but while the write is in progress
partially-written content is visible at the canonical path. -/
theorem save_completes_with_full_payload (init : FsState) (chunks : List String) :
    (fsTrace init (saveSteps chunks)).getLast? =
      some (some (chunks.foldl (fun s c => s ++ c) "")) := by
  rw [fsTrace_getLast?]
  unfold saveSteps
  rw [List.foldl_cons]
  rw [show stepFs init .truncate = some "" from rfl]
  rw [foldl_writeChunks]

/-! ## Theorems: builder dispatch fallback -/

/-- C7: if parallel index building fails to start, `build()` and `update()`
fall back to sequential processing transparently: the parallel attempt raises
inside the store, the exception is caught, and the operation completes with
exactly the result sequential mode (`build_workers = 1`) would produce — the
caller never observes the parallel-startup failure. -/
theorem parallel_startup_failure_transparent
    (env : StoreEnv) (cfg : BuildCfg) (completed : List (List String))
    (st : Option IndexData)
    (hw : cfg.workers ≠ 1) (hfail : cfg.poolStartupFails = true) :
    (∃ e, tryBuildParallel env.imageId env.hashFile cfg completed = .error e) ∧
    IndexStore.build env cfg completed = IndexStore.build env ⟨1, false⟩ [] ∧
    IndexStore.update env cfg completed st = IndexStore.update env ⟨1, false⟩ [] st := by
  have hrb : ∀ f g (paths : List String), runBuilder f g cfg completed paths =
      runBuilder f g ⟨1, false⟩ [] paths := by
    intro f g paths
    unfold runBuilder tryBuildParallel
    rw [if_neg hw, if_pos hfail, if_pos rfl]
  refine ⟨⟨"Parallel processing failed", ?_⟩, ?_, ?_⟩
  · unfold tryBuildParallel
    rw [if_pos hfail]
  · simp only [IndexStore.build, hrb]
  · cases st with
    | none => simp only [IndexStore.update, IndexStore.build, hrb]
    | some idx => simp only [IndexStore.update, hrb]

/-- Witness for C7: a concrete two-file library built with `workers = 4` and
a failing parallel-pool startup yields exactly the sequential-mode result. -/
theorem parallel_startup_failure_transparent_witness :
    (∃ e, tryBuildParallel (fun p => p) (fun p => some (p ++ "#")) ⟨4, true⟩
        [["a", "b"]] = .error e) ∧
    IndexStore.build ⟨fun p => p, fun p => some (p ++ "#"), fun _ => true,
        ["a", "b"], ["lib"], "m", "t"⟩ ⟨4, true⟩ [["a", "b"]] =
      IndexStore.build ⟨fun p => p, fun p => some (p ++ "#"), fun _ => true,
        ["a", "b"], ["lib"], "m", "t"⟩ ⟨1, false⟩ [] := by
  have h := parallel_startup_failure_transparent
    ⟨fun p => p, fun p => some (p ++ "#"), fun _ => true, ["a", "b"], ["lib"], "m", "t"⟩
    ⟨4, true⟩ [["a", "b"]] none (by decide) rfl
  exact ⟨h.1, h.2.1⟩

/-! ## Theorems: lookup -/

/-- The row comparison is transitive. -/
theorem rowLE_trans : ∀ a b c : MatchRow, rowLE a b → rowLE b c → rowLE a c := by
  intro a b c hab hbc
  simp only [rowLE, decide_eq_true_eq] at hab hbc ⊢
  exact le_trans hab hbc

/-- The row comparison is total. -/
theorem rowLE_total : ∀ a b : MatchRow, rowLE a b || rowLE b a := by
  intro a b
  simp only [rowLE, Bool.or_eq_true, decide_eq_true_eq]
  exact le_total a.distance b.distance

/-- C5: for every loaded index, query hash and `topK`, `lookup_matches`
computes a distance for each entry by linear scan (`scanRows`) and returns a
list, sorted by non-decreasing distance with a stable sort, of length at most
`topK`: the result has length ≤ `topK`, is pairwise non-decreasing in
distance, and is the `topK`-prefix of a permutation of the scanned rows in
which any two rows already correctly ordered in the scan (in particular ties)
keep their relative order. -/
theorem lookup_matches_sorted_truncated (dist : String → String → ℚ)
    (items : Dict) (q : String) (topK : ℕ) :
    (lookup_matches dist items q topK).length ≤ topK ∧
    List.Pairwise (fun a b : MatchRow => a.distance ≤ b.distance)
      (lookup_matches dist items q topK) ∧
    List.Sublist (lookup_matches dist items q topK) ((scanRows dist items q).mergeSort rowLE) ∧
    ((scanRows dist items q).mergeSort rowLE).Perm (scanRows dist items q) ∧
    (∀ a b : MatchRow, rowLE a b = true → List.Sublist [a, b] (scanRows dist items q) →
      List.Sublist [a, b] ((scanRows dist items q).mergeSort rowLE)) := by
  refine ⟨?_, ?_, ?_, ?_, ?_⟩
  · exact List.length_take_le _ _
  · have hs : ((scanRows dist items q).mergeSort rowLE).Pairwise
        (fun a b => rowLE a b = true) :=
      List.sorted_mergeSort rowLE_trans rowLE_total (scanRows dist items q)
    have hp : (lookup_matches dist items q topK).Pairwise
        (fun a b => rowLE a b = true) :=
      List.Pairwise.sublist (List.take_sublist _ _) hs
    exact hp.imp fun h => of_decide_eq_true h
  · exact List.take_sublist _ _
  · exact List.mergeSort_perm _ _
  · intro a b hab hsub
    refine List.sublist_mergeSort rowLE_trans rowLE_total ?_ hsub
    refine List.Pairwise.cons ?_ (List.pairwise_singleton _ _)
    intro y hy
    rw [List.mem_singleton] at hy
    subst hy
    exact hab

/-- Witness for C5: a two-entry index queried with `topK = 1` returns a
single row, sorted. -/
theorem lookup_matches_sorted_truncated_witness :
    (lookup_matches (fun _ h => if h = "h1" then 2 else 1)
      [("a", ⟨"pa", "h1"⟩), ("b", ⟨"pb", "h2"⟩)] "q" 1).length ≤ 1 ∧
    List.Pairwise (fun a b : MatchRow => a.distance ≤ b.distance)
      (lookup_matches (fun _ h => if h = "h1" then 2 else 1)
        [("a", ⟨"pa", "h1"⟩), ("b", ⟨"pb", "h2"⟩)] "q" 1) :=
  ⟨(lookup_matches_sorted_truncated (fun _ h => if h = "h1" then 2 else 1)
      [("a", ⟨"pa", "h1"⟩), ("b", ⟨"pb", "h2"⟩)] "q" 1).1,
   (lookup_matches_sorted_truncated (fun _ h => if h = "h1" then 2 else 1)
      [("a", ⟨"pa", "h1"⟩), ("b", ⟨"pb", "h2"⟩)] "q" 1).2.1⟩

/-! ## Theorems: background build progress (C6) -/

/-- A build-task trace always starts with its initial state. -/
theorem runBuildTaskTrace_cons_shape (c : Coordinator) (counts : List ℕ)
    (total : ℕ) (now : String) (meta : IndexMeta) :
    ∃ rest, runBuildTaskTrace c counts total now meta = c :: rest := by
  cases counts <;> exact ⟨_, rfl⟩

/-- The states observed while the task is running carry exactly the reported
progress values: the initial progress followed by each callback value. -/
theorem runBuildTaskTrace_progress : ∀ (counts : List ℕ) (t : BuildProgress)
    (total : ℕ) (now : String) (meta : IndexMeta),
    ((runBuildTaskTrace ⟨some t⟩ counts total now meta).dropLast.map taskProgress)
      = t.progress :: counts
  | [], _, _, _, _ => rfl
  | n :: ns, t, total, now, meta => by
    have ih := runBuildTaskTrace_progress ns { t with progress := n } total now meta
    obtain ⟨rest, hr⟩ :=
      runBuildTaskTrace_cons_shape ⟨some { t with progress := n }⟩ ns total now meta
    rw [show runBuildTaskTrace ⟨some t⟩ (n :: ns) total now meta
        = ⟨some t⟩ :: runBuildTaskTrace ⟨some { t with progress := n }⟩ ns total now meta
      from rfl]
    rw [hr] at ih ⊢
    rw [show ((⟨some t⟩ : Coordinator) :: ⟨some { t with progress := n }⟩ :: rest).dropLast
        = (⟨some t⟩ : Coordinator) :: ((⟨some { t with progress := n }⟩ :: rest).dropLast)
      from rfl]
    rw [List.map_cons, ih]
    rfl

/-- Every state observed before the completion update still shows a running
task. -/
theorem runBuildTaskTrace_running : ∀ (counts : List ℕ) (t : BuildProgress)
    (total : ℕ) (now : String) (meta : IndexMeta), t.status = .running →
    ∀ s ∈ (runBuildTaskTrace ⟨some t⟩ counts total now meta).dropLast,
      isRunningTask s = true
  | [], t, total, now, meta, h => by
    intro s hs
    rw [show (runBuildTaskTrace ⟨some t⟩ [] total now meta).dropLast
        = [⟨some t⟩] from rfl] at hs
    rw [List.mem_singleton] at hs
    subst hs
    show (t.status == BuildStatus.running) = true
    rw [h]
    rfl
  | n :: ns, t, total, now, meta, h => by
    intro s hs
    have ih := runBuildTaskTrace_running ns { t with progress := n } total now meta h
    obtain ⟨rest, hr⟩ :=
      runBuildTaskTrace_cons_shape ⟨some { t with progress := n }⟩ ns total now meta
    rw [show runBuildTaskTrace ⟨some t⟩ (n :: ns) total now meta
        = ⟨some t⟩ :: runBuildTaskTrace ⟨some { t with progress := n }⟩ ns total now meta
      from rfl, hr] at hs
    rw [show ((⟨some t⟩ : Coordinator) :: ⟨some { t with progress := n }⟩ :: rest).dropLast
        = (⟨some t⟩ : Coordinator) :: ((⟨some { t with progress := n }⟩ :: rest).dropLast)
      from rfl] at hs
    rw [List.mem_cons] at hs
    rcases hs with hs | hs
    · subst hs
      show (t.status == BuildStatus.running) = true
      rw [h]
      rfl
    · rw [← hr] at hs
      exact ih s hs

/-- The last state of the trace is the completion update: the task is marked
completed, with `completed_at`, `total`, `progress = total` and the result
metadata recorded. -/
theorem runBuildTaskTrace_final : ∀ (counts : List ℕ) (t : BuildProgress)
    (total : ℕ) (now : String) (meta : IndexMeta),
    ∃ t', (runBuildTaskTrace ⟨some t⟩ counts total now meta).getLast? =
        some ⟨some t'⟩ ∧
      t'.status = .completed ∧ t'.progress = total ∧ t'.completedAt = some now ∧
      t'.total = some total ∧ t'.result = some meta
  | [], t, total, now, meta => ⟨_, rfl, rfl, rfl, rfl, rfl, rfl⟩
  | n :: ns, t, total, now, meta => by
    obtain ⟨t', h1, h2⟩ := runBuildTaskTrace_final ns { t with progress := n } total now meta
    refine ⟨t', ?_, h2⟩
    obtain ⟨rest, hr⟩ :=
      runBuildTaskTrace_cons_shape ⟨some { t with progress := n }⟩ ns total now meta
    rw [show runBuildTaskTrace ⟨some t⟩ (n :: ns) total now meta
        = ⟨some t⟩ :: runBuildTaskTrace ⟨some { t with progress := n }⟩ ns total now meta
      from rfl, hr]
    rw [List.getLast?_cons_cons, ← hr]
    exact h1

/-- The running totals reported to the callback are non-decreasing from any
starting count. -/
theorem runningCountsGo_chain : ∀ (bc : List ℕ) (acc : ℕ),
    List.Chain' (· ≤ ·) (acc :: runningCountsGo acc bc)
  | [], acc => List.chain'_singleton acc
  | n :: ns, acc => by
    rw [show runningCountsGo acc (n :: ns) = (acc + n) :: runningCountsGo (acc + n) ns
      from rfl]
    exact List.chain'_cons.mpr ⟨Nat.le_add_right acc n, runningCountsGo_chain ns (acc + n)⟩

/-- C6: while a build task is running, the asynchronous operation reports
files-processed-so-far into the shared task record via the lock-guarded
callback (each trace step is one critical section of `self._task_lock`), the
task's progress counter is monotonically non-decreasing across the states
observed while the task is running, and on success of the store operation the
task transitions to completed. -/
theorem run_build_task_progress_monotone_completes
    (t : BuildProgress) (batchCounts : List ℕ) (total : ℕ) (now : String)
    (meta : IndexMeta) (hrun : t.status = .running) (h0 : t.progress = 0) :
    ((runBuildTaskTrace ⟨some t⟩ (runningCounts batchCounts) total now
        meta).dropLast.map taskProgress = t.progress :: runningCounts batchCounts) ∧
    List.Chain' (· ≤ ·)
      ((runBuildTaskTrace ⟨some t⟩ (runningCounts batchCounts) total now
        meta).dropLast.map taskProgress) ∧
    (∀ s ∈ (runBuildTaskTrace ⟨some t⟩ (runningCounts batchCounts) total now
        meta).dropLast, isRunningTask s = true) ∧
    (∃ t', (runBuildTaskTrace ⟨some t⟩ (runningCounts batchCounts) total now
        meta).getLast? = some ⟨some t'⟩ ∧
      t'.status = .completed ∧ t'.progress = total ∧ t'.completedAt = some now ∧
      t'.total = some total ∧ t'.result = some meta) := by
  refine ⟨runBuildTaskTrace_progress _ t total now meta, ?_,
    runBuildTaskTrace_running _ t total now meta hrun,
    runBuildTaskTrace_final _ t total now meta⟩
  rw [runBuildTaskTrace_progress _ t total now meta, h0]
  exact runningCountsGo_chain batchCounts 0

/-- Witness for C6: a running task with two batches of 2 and 3 files observes
the progress sequence 0, 2, 5 while running and ends completed at
`progress = total = 4` (4 files actually indexed, e.g. one error). -/
theorem run_build_task_progress_monotone_completes_witness :
    ((runBuildTaskTrace ⟨some ⟨"build", .running, 0, none, "t0", none, none, none⟩⟩
        (runningCounts [2, 3]) 4 "t1" ⟨"m", "c", "u", "build", [], [], none⟩).dropLast.map
        taskProgress = [0, 2, 5]) ∧
    (∃ t', (runBuildTaskTrace ⟨some ⟨"build", .running, 0, none, "t0", none, none, none⟩⟩
        (runningCounts [2, 3]) 4 "t1" ⟨"m", "c", "u", "build", [], [], none⟩).getLast? =
        some ⟨some t'⟩ ∧ t'.status = .completed ∧ t'.progress = 4 ∧
        t'.completedAt = some "t1") := by
  have h := run_build_task_progress_monotone_completes
    ⟨"build", .running, 0, none, "t0", none, none, none⟩ [2, 3] 4 "t1"
    ⟨"m", "c", "u", "build", [], [], none⟩ rfl rfl
  refine ⟨h.1.trans rfl, ?_⟩
  obtain ⟨t', h1, h2, h3, h4, h5, h6⟩ := h.2.2.2
  exact ⟨t', h1, h2, h3, h4⟩

/-! ## Dictionary lemmas -/

/-- Looking up after a Python-dict assignment. -/
theorem dictGet_dictInsert : ∀ (d : Dict) (e : KEntry) (k : String),
    dictGet (dictInsert d e) k = if e.1 = k then some e.2 else dictGet d k
  | [], _, _ => rfl
  | x :: xs, e, k => by
    by_cases hxe : x.1 = e.1
    · simp only [dictInsert, if_pos hxe, dictGet]
      by_cases hek : e.1 = k
      · simp only [if_pos hek]
      · simp only [if_neg hek, if_neg (show ¬x.1 = k from fun h => hek (hxe.symm.trans h))]
    · simp only [dictInsert, if_neg hxe, dictGet, dictGet_dictInsert xs e k]
      by_cases hxk : x.1 = k
      · have hek : ¬e.1 = k := fun h => hxe (hxk.trans h.symm)
        simp only [if_pos hxk, if_neg hek]
      · simp only [if_neg hxk]

/-- Pointwise-equal dictionaries stay pointwise equal under the same
sequence of assignments. -/
theorem dictGet_dictUpdate_congr : ∀ (l : List KEntry) (d₁ d₂ : Dict),
    (∀ k, dictGet d₁ k = dictGet d₂ k) →
    ∀ k, dictGet (dictUpdate d₁ l) k = dictGet (dictUpdate d₂ l) k
  | [], _, _, h => h
  | e :: l, d₁, d₂, h => by
    intro k
    show dictGet (dictUpdate (dictInsert d₁ e) l) k
      = dictGet (dictUpdate (dictInsert d₂ e) l) k
    refine dictGet_dictUpdate_congr l _ _ (fun k' => ?_) k
    rw [dictGet_dictInsert, dictGet_dictInsert, h k']

/-- Inserting a permutation of the same entries produces the same mapping,
provided entries agreeing on the key agree entirely (in the index build the
key determines the whole entry). -/
theorem dictGet_dictUpdate_perm : ∀ {l₁ l₂ : List KEntry}, l₁.Perm l₂ →
    (∀ a ∈ l₁, ∀ b ∈ l₁, a.1 = b.1 → a = b) →
    ∀ (d : Dict) (k : String),
      dictGet (dictUpdate d l₁) k = dictGet (dictUpdate d l₂) k := by
  intro l₁ l₂ hp
  induction hp with
  | nil => intro _ d k; rfl
  | cons x _ ih =>
    intro huniq d k
    show dictGet (dictUpdate (dictInsert d x) _) k
      = dictGet (dictUpdate (dictInsert d x) _) k
    exact ih (fun a ha b hb hab =>
      huniq a (List.mem_cons_of_mem x ha) b (List.mem_cons_of_mem x hb) hab)
      (dictInsert d x) k
  | swap x y l =>
    intro huniq d k
    show dictGet (dictUpdate (dictInsert (dictInsert d y) x) l) k
      = dictGet (dictUpdate (dictInsert (dictInsert d x) y) l) k
    refine dictGet_dictUpdate_congr l _ _ (fun k' => ?_) k
    rw [dictGet_dictInsert, dictGet_dictInsert, dictGet_dictInsert, dictGet_dictInsert]
    by_cases hxk : x.1 = k'
    · by_cases hyk : y.1 = k'
      · have hxy : y = x := huniq y (by simp) x (by simp) (hyk.trans hxk.symm)
        subst hxy
        simp only [if_pos hxk]
      · simp only [if_pos hxk, if_neg hyk]
    · by_cases hyk : y.1 = k'
      · simp only [if_neg hxk, if_pos hyk]
      · simp only [if_neg hxk, if_neg hyk]
  | trans h₁ _ ih₁ ih₂ =>
    intro huniq d k
    exact (ih₁ huniq d k).trans
      (ih₂ (fun a ha b hb hab =>
        huniq a (h₁.mem_iff.mpr ha) b (h₁.mem_iff.mpr hb) hab) d k)

/-! ## Builder lemmas -/

/-- Per-batch processing then aggregation equals processing the concatenated
path list: the per-file logic is batch-independent. -/
theorem batchResults_flatten (f : String → String) (g : String → Option String) :
    ∀ (bs : List (List String)),
      (bs.map (batchResults f g)).flatten = batchResults f g bs.flatten
  | [] => rfl
  | b :: bs => by
    rw [List.map_cons, List.flatten_cons, batchResults_flatten f g bs]
    show _ = batchResults f g (b ++ bs.flatten)
    unfold batchResults
    rw [List.filterMap_append]

/-- Function `_iter_batches` partitions the discovered paths: flattening the batches
recovers the path list in order. -/
theorem iterBatchesGo_flatten (bs : ℕ) : ∀ (ps : List String) (acc : List String),
    (iterBatchesGo bs acc ps).flatten = acc ++ ps
  | [], acc => by
    unfold iterBatchesGo
    by_cases h : acc.isEmpty
    · rw [if_pos h, List.isEmpty_iff.mp h]
      rfl
    · rw [if_neg h]
      simp
  | p :: ps, acc => by
    unfold iterBatchesGo
    by_cases h : bs ≤ (acc ++ [p]).length
    · rw [if_pos h, List.flatten_cons, iterBatchesGo_flatten bs ps []]
      simp
    · rw [if_neg h, iterBatchesGo_flatten bs ps (acc ++ [p])]
      simp

/-- Function `_iter_batches` loses and duplicates nothing. -/
theorem iterBatches_flatten (bs : ℕ) (paths : List String) :
    (iterBatches bs paths).flatten = paths := by
  unfold iterBatches
  rw [iterBatchesGo_flatten]
  rfl

/-- Shape of a successful batch result entry: key `imageId p`, value
`{path := p, hash := the hash}`. -/
theorem mem_batchResults {f : String → String} {g : String → Option String}
    {ps : List String} {a : KEntry} (h : a ∈ batchResults f g ps) :
    ∃ p ∈ ps, ∃ hv, g p = some hv ∧ a = (f p, ⟨p, hv⟩) := by
  unfold batchResults at h
  rw [List.mem_filterMap] at h
  obtain ⟨p, hp, hpp⟩ := h
  unfold processPath at hpp
  cases hg : g p with
  | none => rw [hg] at hpp; exact absurd hpp (by simp)
  | some hv =>
    rw [hg] at hpp
    simp only [Option.map_some'] at hpp
    exact ⟨p, hp, hv, hg, (Option.some.inj hpp).symm⟩

/-! ## Theorems: parallel/sequential equivalence (C1) -/

/-- C1: for every file set, building the index in sequential mode
(`build_index_sequential`, the per-file logic of `_process_image_batch`
applied in order with no parallelism) and in parallel mode
(`build_index_parallel`, the same per-file logic over batches collected in
any completion order) produces identical `image_id → hash` mappings, provided
`image_id` (sha256 of the path) has no collisions on the file set. -/
theorem build_index_parallel_eq_sequential
    (imageId : String → String) (hashFile : String → Option String)
    (paths : List String) (batchSize : ℕ) (completed : List (List String))
    (hperm : completed.Perm (iterBatches batchSize paths))
    (hinj : ∀ p ∈ paths, ∀ q ∈ paths, imageId p = imageId q → p = q) :
    ∀ k, dictGet (build_index_parallel imageId hashFile completed).1 k =
      dictGet (build_index_sequential imageId hashFile paths).1 k := by
  intro k
  show dictGet (dictUpdate [] ((completed.map (batchResults imageId hashFile)).flatten)) k
    = dictGet (dictUpdate [] (batchResults imageId hashFile paths)) k
  rw [batchResults_flatten]
  have hflat : completed.flatten.Perm paths := by
    have h := hperm.flatten
    rw [iterBatches_flatten] at h
    exact h
  have hentries : (batchResults imageId hashFile completed.flatten).Perm
      (batchResults imageId hashFile paths) := hflat.filterMap _
  refine dictGet_dictUpdate_perm hentries (fun a ha b hb hab => ?_) [] k
  obtain ⟨p, hp, hv, hgp, hae⟩ := mem_batchResults ha
  obtain ⟨q, hq, hw, hgq, hbe⟩ := mem_batchResults hb
  have hpq : p = q := by
    refine hinj p (hflat.mem_iff.mp hp) q (hflat.mem_iff.mp hq) ?_
    rw [hae, hbe] at hab
    exact hab
  subst hpq
  have hvw : hv = hw := Option.some.inj (hgp.symm.trans hgq)
  rw [hae, hbe, hvw]

/-- Witness for C1: three files batched in twos, with the single-file batch
completing first, produce the same mapping as the in-order sequential build. -/
theorem build_index_parallel_eq_sequential_witness :
    dictGet (build_index_parallel (fun p => p ++ "!") (fun p => some (p ++ "#"))
      [["c"], ["a", "b"]]).1 "a!" =
      dictGet (build_index_sequential (fun p => p ++ "!") (fun p => some (p ++ "#"))
        ["a", "b", "c"]).1 "a!" ∧
    dictGet (build_index_sequential (fun p => p ++ "!") (fun p => some (p ++ "#"))
      ["a", "b", "c"]).1 "a!" = some ⟨"a", "a#"⟩ := by
  constructor
  · refine build_index_parallel_eq_sequential (fun p => p ++ "!")
      (fun p => some (p ++ "#")) ["a", "b", "c"] 2 [["c"], ["a", "b"]] ?_ ?_ "a!"
    · rw [show iterBatches 2 ["a", "b", "c"] = [["a", "b"], ["c"]] from rfl]
      exact List.Perm.swap _ _ _
    · decide
  · rfl

/-! ## Dictionary merge lemmas (for C3) -/

/-- Python `k in d` decides membership of the key. -/
theorem containsKey_eq_true_iff : ∀ (d : Dict) (k : String),
    containsKey d k = true ↔ ∃ e ∈ d, e.1 = k
  | [], k => by simp [containsKey]
  | x :: xs, k => by
    simp [containsKey, containsKey_eq_true_iff xs k]

/-- Assigning a fresh key appends the pair. -/
theorem dictInsert_eq_append : ∀ (d : Dict) (e : KEntry),
    containsKey d e.1 = false → dictInsert d e = d ++ [e]
  | [], _, _ => rfl
  | x :: xs, e, h => by
    rw [show containsKey (x :: xs) e.1 = (x.1 == e.1 || containsKey xs e.1) from rfl,
      Bool.or_eq_false_iff] at h
    rw [show dictInsert (x :: xs) e =
      if x.1 = e.1 then e :: xs else x :: dictInsert xs e from rfl]
    rw [if_neg (by simpa using h.1), dictInsert_eq_append xs e h.2]
    rfl

/-- Key membership distributes over appending dictionaries. -/
theorem containsKey_append : ∀ (d₁ d₂ : Dict) (k : String),
    containsKey (d₁ ++ d₂) k = (containsKey d₁ k || containsKey d₂ k)
  | [], d₂, k => by simp [containsKey]
  | x :: xs, d₂, k => by
    show (x.1 == k || containsKey (xs ++ d₂) k)
      = ((x.1 == k || containsKey xs k) || containsKey d₂ k)
    rw [containsKey_append xs d₂ k, Bool.or_assoc]

/-- Merging a dict of fresh, mutually distinct keys appends its pairs in
order (`dict.update` with disjoint keys is concatenation). -/
theorem dictUpdate_eq_append : ∀ (l : List KEntry) (d : Dict),
    (∀ e ∈ l, containsKey d e.1 = false) → (l.map Prod.fst).Nodup →
    dictUpdate d l = d ++ l
  | [], d, _, _ => by simp [dictUpdate]
  | e :: l, d, hfresh, hnodup => by
    show dictUpdate (dictInsert d e) l = d ++ e :: l
    rw [dictInsert_eq_append d e (hfresh e (List.mem_cons_self e l))]
    rw [dictUpdate_eq_append l (d ++ [e]) ?_ ?_]
    · simp
    · intro a ha
      rw [containsKey_append, hfresh a (List.mem_cons_of_mem e ha)]
      have hne : ¬e.1 = a.1 := by
        rw [List.map_cons] at hnodup
        intro hh
        exact (List.nodup_cons.mp hnodup).1 (hh ▸ List.mem_map_of_mem Prod.fst ha)
      show (false || (e.1 == a.1 || false)) = false
      simp [hne]
    · rw [List.map_cons] at hnodup
      exact (List.nodup_cons.mp hnodup).2

/-- Filtering a list by a predicate and by its negation partitions it. -/
theorem length_filter_partition : ∀ (l : List KEntry) (f : KEntry → Bool),
    (l.filter f).length + (l.filter fun e => !f e).length = l.length
  | [], _ => rfl
  | x :: l, f => by
    cases hfx : f x <;>
      simp [List.filter_cons, hfx, ← length_filter_partition l f] <;> omega

/-- Every path hashing successfully, the batch produces one entry per path. -/
theorem batchResults_length_of_success : ∀ (ps : List String)
    (f : String → String) (g : String → Option String),
    (∀ p ∈ ps, (g p).isSome = true) →
    (batchResults f g ps).length = ps.length
  | [], _, _, _ => rfl
  | p :: ps, f, g, h => by
    obtain ⟨hv, hgp⟩ := Option.isSome_iff_exists.mp (h p (List.mem_cons_self p ps))
    have hpp : processPath f g p = some (f p, ⟨p, hv⟩) := by
      unfold processPath
      rw [hgp]
      rfl
    unfold batchResults
    rw [List.filterMap_cons_some hpp]
    show (batchResults f g ps).length + 1 = ps.length + 1
    rw [batchResults_length_of_success ps f g fun q hq => h q (List.mem_cons_of_mem p hq)]

/-- Every path hashing successfully, the batch entry keys are the image ids of
the paths, in order. -/
theorem batchResults_keys_of_success : ∀ (ps : List String)
    (f : String → String) (g : String → Option String),
    (∀ p ∈ ps, (g p).isSome = true) →
    (batchResults f g ps).map Prod.fst = ps.map f
  | [], _, _, _ => rfl
  | p :: ps, f, g, h => by
    obtain ⟨hv, hgp⟩ := Option.isSome_iff_exists.mp (h p (List.mem_cons_self p ps))
    have hpp : processPath f g p = some (f p, ⟨p, hv⟩) := by
      unfold processPath
      rw [hgp]
      rfl
    unfold batchResults
    rw [List.filterMap_cons_some hpp, List.map_cons, List.map_cons]
    show f p :: (batchResults f g ps).map Prod.fst = f p :: ps.map f
    rw [batchResults_keys_of_success ps f g fun q hq => h q (List.mem_cons_of_mem p hq)]

/-! ## Theorems: incremental update (C3) -/

/-- C3: for an existing loaded index, with M entries dropped because their
backing file was deleted and K new files discovered (all hashing
successfully, none previously indexed by exact path — `updateNewPaths`),
`update()` yields an index with N - M + K entries and metadata stats
`{added: K, removed: M, total: N - M + K}`, preserving the original
`created_at`; and if no index exists yet, `update()` performs a full
`build()`.  Stated for the parallel processing mode over any batch completion
order, with `image_id` collision-free over the involved paths and entry ids
derived from their paths as the builder produces them. -/
theorem update_incremental_counts
    (env : StoreEnv) (cfg : BuildCfg) (batchSize : ℕ)
    (completed : List (List String)) (idx : IndexData)
    (hw : cfg.workers ≠ 1) (hpool : cfg.poolStartupFails = false)
    (horder : completed.Perm (iterBatches batchSize (updateNewPaths env idx)))
    (hids : ∀ e ∈ idx.items, e.1 = env.imageId e.2.path)
    (hdisc : env.discovered.Nodup)
    (hhash : ∀ p ∈ updateNewPaths env idx, (env.hashFile p).isSome = true)
    (hinj : ∀ p ∈ env.discovered ++ idx.items.map (fun e => e.2.path),
            ∀ q ∈ env.discovered ++ idx.items.map (fun e => e.2.path),
            env.imageId p = env.imageId q → p = q) :
    (IndexStore.update env cfg completed (some idx)).items.length
        = idx.items.length - (updateRemovedPaths env idx).length
          + (updateNewPaths env idx).length ∧
    (IndexStore.update env cfg completed (some idx)).meta.stats
        = some ⟨(updateNewPaths env idx).length, (updateRemovedPaths env idx).length,
            idx.items.length - (updateRemovedPaths env idx).length
              + (updateNewPaths env idx).length⟩ ∧
    (IndexStore.update env cfg completed (some idx)).meta.createdAt
        = idx.meta.createdAt ∧
    IndexStore.update env cfg completed none = IndexStore.build env cfg completed := by
  have hnp_sub : ∀ p ∈ updateNewPaths env idx, p ∈ env.discovered :=
    fun p hp => (List.mem_filter.mp hp).1
  have hnp_nodup : (updateNewPaths env idx).Nodup := hdisc.filter _
  have hkeysnp_nodup : ((updateNewPaths env idx).map env.imageId).Nodup :=
    hnp_nodup.map_on fun x hx y hy hxy =>
      hinj x (List.mem_append_left _ (hnp_sub x hx))
        y (List.mem_append_left _ (hnp_sub y hy)) hxy
  have hfreshKey : ∀ p ∈ updateNewPaths env idx,
      containsKey (updateKept env idx) (env.imageId p) = false := by
    intro p hp
    cases hck : containsKey (updateKept env idx) (env.imageId p) with
    | false => rfl
    | true =>
      exfalso
      obtain ⟨ke, hke, hkek⟩ := (containsKey_eq_true_iff _ _).mp hck
      have hkei : ke ∈ idx.items := (List.mem_filter.mp hke).1
      have hpq : ke.2.path = p :=
        hinj ke.2.path (List.mem_append_right _ (List.mem_map_of_mem _ hkei))
          p (List.mem_append_left _ (hnp_sub p hp))
          ((hids ke hkei).symm.trans hkek)
      have hcond := (List.mem_filter.mp hp).2
      have hmem : p ∈ (updateKept env idx).map fun e => e.2.path :=
        hpq ▸ List.mem_map_of_mem _ hke
      have hcontains : ((updateKept env idx).map fun e => e.2.path).contains p = true :=
        List.elem_eq_true_of_mem hmem
      rw [hcontains] at hcond
      simp at hcond
  have hpart : (updateKept env idx).length + (updateRemovedPaths env idx).length
      = idx.items.length := by
    unfold updateKept updateRemovedPaths
    rw [List.length_map]
    exact length_filter_partition idx.items _
  have hit : (IndexStore.update env cfg completed (some idx)).items
      = dictUpdate (updateKept env idx)
        (if (updateNewPaths env idx).isEmpty then (([] : Dict), ([] : List String))
          else runBuilder env.imageId env.hashFile cfg completed
            (updateNewPaths env idx)).1 := rfl
  have hfinal : (IndexStore.update env cfg completed (some idx)).items.length
      = idx.items.length - (updateRemovedPaths env idx).length
        + (updateNewPaths env idx).length := by
    cases hemp : (updateNewPaths env idx).isEmpty with
    | true =>
      have hnil : updateNewPaths env idx = [] := List.isEmpty_iff.mp hemp
      rw [hit, if_pos hemp]
      show (updateKept env idx).length = _
      rw [hnil, List.length_nil]
      omega
    | false =>
      rw [hit, if_neg (by rw [hemp]; exact Bool.false_ne_true)]
      have hrun : runBuilder env.imageId env.hashFile cfg completed
          (updateNewPaths env idx)
          = build_index_parallel env.imageId env.hashFile completed := by
        unfold runBuilder tryBuildParallel
        rw [if_neg hw, if_neg (by rw [hpool]; exact Bool.false_ne_true)]
      rw [hrun]
      show (dictUpdate (updateKept env idx) (dictUpdate []
        ((completed.map (batchResults env.imageId env.hashFile)).flatten))).length = _
      rw [batchResults_flatten]
      have hflat : completed.flatten.Perm (updateNewPaths env idx) := by
        have h := horder.flatten
        rw [iterBatches_flatten] at h
        exact h
      have hpermEnt : (batchResults env.imageId env.hashFile
          completed.flatten).Perm (batchResults env.imageId env.hashFile
          (updateNewPaths env idx)) := hflat.filterMap _
      have hkeysEnt_nodup : ((batchResults env.imageId env.hashFile
          completed.flatten).map Prod.fst).Nodup := by
        have hkeys : (batchResults env.imageId env.hashFile
            (updateNewPaths env idx)).map Prod.fst
            = (updateNewPaths env idx).map env.imageId :=
          batchResults_keys_of_success _ _ _ hhash
        have hp2 : ((batchResults env.imageId env.hashFile
            completed.flatten).map Prod.fst).Perm
            ((updateNewPaths env idx).map env.imageId) := by
          have h := hpermEnt.map Prod.fst
          rw [hkeys] at h
          exact h
        exact hp2.symm.nodup hkeysnp_nodup
      have hfreshEnt : ∀ e ∈ batchResults env.imageId env.hashFile
          completed.flatten, containsKey (updateKept env idx) e.1 = false := by
        intro e he
        obtain ⟨p, hp, hv, hgp, hae⟩ := mem_batchResults he
        rw [hae]
        exact hfreshKey p (hflat.mem_iff.mp hp)
      have hEntLen : (batchResults env.imageId env.hashFile
          completed.flatten).length = (updateNewPaths env idx).length := by
        rw [hpermEnt.length_eq, batchResults_length_of_success _ _ _ hhash]
      rw [dictUpdate_eq_append _ [] (fun _ _ => rfl) hkeysEnt_nodup]
      rw [show ([] : Dict) ++ batchResults env.imageId env.hashFile completed.flatten
        = batchResults env.imageId env.hashFile completed.flatten from rfl]
      rw [dictUpdate_eq_append _ _ hfreshEnt hkeysEnt_nodup, List.length_append, hEntLen]
      omega
  refine ⟨hfinal, ?_, rfl, rfl⟩
  rw [show (IndexStore.update env cfg completed (some idx)).meta.stats
      = some ⟨(updateNewPaths env idx).length, (updateRemovedPaths env idx).length,
          (IndexStore.update env cfg completed (some idx)).items.length⟩ from rfl, hfinal]

/-- Witness for C3: the spec's own scenario — a 3-entry index over
`a.jpg, b.jpg, c.jpg`; `b.jpg` is deleted and `d.jpg` added; `update()`
yields 3 entries with stats `{added: 1, removed: 1, total: 3}` and the
original `created_at`. -/
theorem update_incremental_counts_witness :
    (IndexStore.update
      ⟨fun p => "id:" ++ p, fun p => some ("h:" ++ p), fun p => p != "b.jpg",
        ["a.jpg", "c.jpg", "d.jpg"], ["lib"], "m", "t9"⟩
      ⟨0, false⟩ [["d.jpg"]]
      (some ⟨⟨"m", "t0", "t1", "build", ["lib"], [], none⟩,
        [("id:a.jpg", ⟨"a.jpg", "h:a.jpg"⟩), ("id:b.jpg", ⟨"b.jpg", "h:b.jpg"⟩),
         ("id:c.jpg", ⟨"c.jpg", "h:c.jpg"⟩)]⟩)).items.length = 3 ∧
    (IndexStore.update
      ⟨fun p => "id:" ++ p, fun p => some ("h:" ++ p), fun p => p != "b.jpg",
        ["a.jpg", "c.jpg", "d.jpg"], ["lib"], "m", "t9"⟩
      ⟨0, false⟩ [["d.jpg"]]
      (some ⟨⟨"m", "t0", "t1", "build", ["lib"], [], none⟩,
        [("id:a.jpg", ⟨"a.jpg", "h:a.jpg"⟩), ("id:b.jpg", ⟨"b.jpg", "h:b.jpg"⟩),
         ("id:c.jpg", ⟨"c.jpg", "h:c.jpg"⟩)]⟩)).meta.stats = some ⟨1, 1, 3⟩ ∧
    (IndexStore.update
      ⟨fun p => "id:" ++ p, fun p => some ("h:" ++ p), fun p => p != "b.jpg",
        ["a.jpg", "c.jpg", "d.jpg"], ["lib"], "m", "t9"⟩
      ⟨0, false⟩ [["d.jpg"]]
      (some ⟨⟨"m", "t0", "t1", "build", ["lib"], [], none⟩,
        [("id:a.jpg", ⟨"a.jpg", "h:a.jpg"⟩), ("id:b.jpg", ⟨"b.jpg", "h:b.jpg"⟩),
         ("id:c.jpg", ⟨"c.jpg", "h:c.jpg"⟩)]⟩)).meta.createdAt = "t0" := by
  have h := update_incremental_counts
    ⟨fun p => "id:" ++ p, fun p => some ("h:" ++ p), fun p => p != "b.jpg",
      ["a.jpg", "c.jpg", "d.jpg"], ["lib"], "m", "t9"⟩
    ⟨0, false⟩ 20 [["d.jpg"]]
    ⟨⟨"m", "t0", "t1", "build", ["lib"], [], none⟩,
      [("id:a.jpg", ⟨"a.jpg", "h:a.jpg"⟩), ("id:b.jpg", ⟨"b.jpg", "h:b.jpg"⟩),
       ("id:c.jpg", ⟨"c.jpg", "h:c.jpg"⟩)]⟩
    (by decide) rfl (by decide) (by decide) (by decide) (by decide) (by decide)
  exact ⟨h.1.trans (by decide), h.2.1.trans (by decide), h.2.2.1⟩

end PhotoLookup
